import Mathlib

/-!
Verification of the letterhead-merger watcher (src/main.py).

The development shallowly embeds the core pipeline of the program:
the in-place merge operation `merge_letterhead`, the file-stability
poll `wait_until_file_ready`, the event handler (`_should_process`,
`_process_event`) and the watch toggle.  Filesystem reads are inputs
(documents are passed in), filesystem writes and UI calls are recorded
as explicit effect lists, and the clock is passed in explicitly.
-/

set_option autoImplicit false
set_option linter.unusedVariables false

namespace Merger

/-! ### Paths and strings

Paths are a directory part plus a file name.  The helpers below model
the Python string and pathlib operations the program uses, over the
character lists of the strings (ASCII names, as used by the program).
-/

/-- Model of `str.endswith(suf)`. -/
def endswith (s suf : String) : Bool :=
  List.isSuffixOf suf.data s.data

/-- ASCII lower-casing of one character, as `str.lower` does. -/
def lowerChar (c : Char) : Char :=
  if 65 ≤ c.toNat ∧ c.toNat ≤ 90 then Char.ofNat (c.toNat + 32) else c

/-- Model of `str.lower()` for ASCII strings. -/
def lower (s : String) : String :=
  ⟨s.data.map lowerChar⟩

/-- Drop the last dot-suffix of a file name, as `pathlib.Path.stem`
does for a name that has a dot. -/
def dropLastDotSuffix (cs : List Char) : List Char :=
  if '.' ∈ cs then ((cs.reverse.dropWhile (fun c => c != '.')).drop 1).reverse else cs

/-- A filesystem path: directory part and file name.  Paths handed to
the pipeline are absolute, so `resolve` is the identity on them. -/
structure Path where
  dir : String
  name : String
deriving DecidableEq

/-- Model of `str(path)`. -/
def pathStr (p : Path) : String := p.dir ++ "/" ++ p.name

/-- Model of `path.with_suffix(suf)` for names with a normal extension. -/
def with_suffix (p : Path) (suf : String) : Path :=
  ⟨p.dir, String.mk (dropLastDotSuffix p.name.data) ++ suf⟩

/-! ### Documents and the page-overlay merge (src/main.py lines 133-143) -/

/-- A page: either original content, or a page with another page
composited onto it (`PageObject.merge_page`). -/
inductive Page where
  | base (content : String)
  | overlaid (p : Page) (over : Page)
deriving DecidableEq, Inhabited

/-- Model of `merged_page.merge_page(header_page)`: the result keeps the
page content and adds the overlay. -/
def merge_page (p over : Page) : Page := .overlaid p over

/-- A PDF document is its ordered list of pages. -/
structure Document where
  pages : List Page
deriving DecidableEq, Inhabited

/-- Error raised when the letterhead does not have exactly one page
(src/main.py line 136). -/
inductive MergeError where
  | invalidLetterhead
deriving DecidableEq

/-- The writer built by the loop at lines 139-143: every invoice page
with the letterhead header composited onto it, in order. -/
def overlayAll (invoice : Document) (header : Page) : Document :=
  ⟨invoice.pages.map (fun p => merge_page p header)⟩

/-- The pure merge of lines 135-143: validate the letterhead page count,
then overlay its single page onto every invoice page. -/
def merge (invoice letterhead : Document) : Except MergeError Document :=
  if letterhead.pages.length ≠ 1 then .error .invalidLetterhead
  else .ok (overlayAll invoice letterhead.pages.headI)

/-! ### Filesystem effects of the write-and-commit step -/

/-- A recorded filesystem effect: writing a document to a path, or
`os.replace(src, dst)`. -/
inductive Effect where
  | write (p : Path) (d : Document)
  | replace (src : Path) (dst : Path)
deriving DecidableEq

def isReplaceE : Effect → Bool
  | .replace _ _ => true
  | _ => false

/-- The replace effects of an effect list. -/
def replaceEffects (es : List Effect) : List Effect := es.filter isReplaceE

/-- Replay one effect on a filesystem (a map from paths to contents). -/
def applyEffect (store : Path → Option Document) : Effect → Path → Option Document
  | .write p d => fun q => if q = p then some d else store q
  | .replace src dst => fun q =>
      if q = dst then store src else if q = src then none else store q

/-- Replay a chronological effect list on a filesystem. -/
def applyEffects (store : Path → Option Document) : List Effect → Path → Option Document
  | [] => store
  | e :: rest => applyEffects (applyEffect store e) rest

/-! ### The merge pipeline (src/main.py lines 118-171) -/

/-- Outcome of one `merge_letterhead` call. -/
inductive MergeOutcome where
  | skippedSuffix
  | skippedProcessed
  | ok
  | errInvalidLetterhead
  | errWrite
deriving DecidableEq

/-- Everything one `merge_letterhead` call does: the updated global
processed set, its filesystem effects, the number of 1.5-unit retry
sleeps, and the UI surface it touched (tray notifications, log lines,
info dialogs, error dialogs). -/
structure MergeResult where
  processed : List String
  effects : List Effect
  sleeps : Nat
  notices : List String
  logs : List String
  infoBoxes : List String
  errorBoxes : List String
  outcome : MergeOutcome
deriving DecidableEq

/-- Result of a call that returned at lines 127-130 before doing anything. -/
def skipResult (processed : List String) (o : MergeOutcome) : MergeResult :=
  ⟨processed, [], 0, [], [], [], [], o⟩

/-- The retry loop of lines 149-164.  `wenv i` tells whether the write of
attempt `i` succeeds and whether the `os.replace` of attempt `i` succeeds
(a `false` is a `PermissionError`; each failure is followed by a 1.5-unit
sleep).  Returns the chronological effects, the sleep count, and whether
some attempt committed. -/
def writeLoop (temp target : Path) (doc : Document) (inPlace : Bool)
    (wenv : Nat → Bool × Bool) : Nat → Nat → List Effect × Nat × Bool
  | 0, _ => ([], 0, false)
  | fuel+1, i =>
    match wenv i with
    | (false, _) =>
      let r := writeLoop temp target doc inPlace wenv fuel (i+1)
      (r.1, r.2.1 + 1, r.2.2)
    | (true, rOk) =>
      if inPlace then
        if rOk then ([.write temp doc, .replace temp target], 0, true)
        else
          let r := writeLoop temp target doc inPlace wenv fuel (i+1)
          (.write temp doc :: r.1, r.2.1 + 1, r.2.2)
      else ([.write temp doc], 0, true)

/-- The full `merge_letterhead` of lines 118-171.  The documents read
from `invoice_path` and `letterhead_path` are inputs; `wenv` drives the
retry loop.  The body follows the source line by line: the merged-name
skip, the processed-set skip, the unconditional insertion into the
processed set, validation, overlay, the temp-path choice, the retry
loop, and the catch-all error surface. -/
def merge_letterhead (processed : List String) (invoice_path letterhead_path : Path)
    (output_path : Option Path) (invoice letterhead : Document)
    (wenv : Nat → Bool × Bool) (retries : Nat := 3) : MergeResult :=
  if endswith invoice_path.name ".merged.pdf" then skipResult processed .skippedSuffix
  else if pathStr invoice_path ∈ processed then skipResult processed .skippedProcessed
  else
    let processed1 := pathStr invoice_path :: processed
    match merge invoice letterhead with
    | .error _ =>
      ⟨processed1, [], 0, ["Merge Failed"], ["fail"], [],
        if output_path.isSome then ["Merge Error"] else [], .errInvalidLetterhead⟩
    | .ok doc =>
      let temp := match output_path with
        | some o => o
        | none => with_suffix invoice_path ".merged.pdf"
      let r := writeLoop temp invoice_path doc output_path.isNone wenv retries 0
      if r.2.2 then
        match output_path with
        | none => ⟨processed1, r.1, r.2.1, ["Merge Complete"], ["merged"], [], [], .ok⟩
        | some _ => ⟨processed1, r.1, r.2.1, [], ["manual saved"], ["Success"], [], .ok⟩
      else
        ⟨processed1, r.1, r.2.1, ["Merge Failed"], ["fail"], [],
          if output_path.isSome then ["Merge Error"] else [], .errWrite⟩

/-! ### File-stability polling (src/main.py lines 174-188) -/

/-- One poll of the watched file: the file is absent (`exists()` is
false), or it vanished between `exists()` and `stat()` (the
`FileNotFoundError` branch), or it has a size. -/
inductive Obs where
  | absent
  | statGone
  | size (n : Nat)
deriving DecidableEq

/-- The polling loop body of lines 176-187 over the remaining polls,
carrying `last_size` (initially `-1`). -/
def waitLoopL : List Obs → Int → Bool
  | [], _ => false
  | o :: rest, last =>
    match o with
    | .absent => waitLoopL rest last
    | .statGone => false
    | .size n => if (n : Int) = last ∧ 0 < n then true else waitLoopL rest n

/-- The polls the loop can make: `range(timeout * 2)` observations of
the file, in order. -/
def pollWindow (obs : Nat → Obs) (timeout : Nat) : List Obs :=
  (List.range (timeout * 2)).map obs

/-- Model of `wait_until_file_ready(file_path, timeout=10)`: run the
poll loop over the `timeout * 2` polls with `last_size = -1`. -/
def wait_until_file_ready (obs : Nat → Obs) (timeout : Nat := 10) : Bool :=
  waitLoopL (pollWindow obs timeout) (-1)

def isStatGone : Obs → Bool
  | .statGone => true
  | _ => false

def obsSize : Obs → Option Nat
  | .size n => some n
  | _ => none

/-- The sizes the loop actually observes: the size readings of the
polls, up to the first mid-poll disappearance. -/
def sizeReads (l : List Obs) : List Nat :=
  (l.takeWhile (fun o => !isStatGone o)).filterMap obsSize

/-- Whether a list of size readings has two consecutive entries that
are equal and greater than zero. -/
def hasAdjEqPos : List Nat → Bool
  | a :: b :: rest => if b = a ∧ 0 < b then true else hasAdjEqPos (b :: rest)
  | _ => false

/-- Integer variant of `hasAdjEqPos`, used to account for the initial
`last_size = -1`. -/
def hasAdjEqPosI : List Int → Bool
  | a :: b :: rest => if b = a ∧ 0 < b then true else hasAdjEqPosI (b :: rest)
  | _ => false

/-! ### The watch handler (src/main.py lines 191-234) -/

/-- The debounce window constant `DEBOUNCE_SECONDS = 10`. -/
def DEBOUNCE_SECONDS : Int := 10

/-- Per-session handler state: the per-path last-processed table
(`self.processed_files`, a float-valued defaultdict) and the session
start time.  Timestamps are modeled as integers: the debounce logic
only subtracts and compares them. -/
structure HandlerState where
  debounce : List (String × Int)
  start_time : Int
deriving DecidableEq

/-- Model of `table.get(key, 0)` on the debounce table. -/
def lookupD (tbl : List (String × Int)) (k : String) : Int :=
  match tbl with
  | [] => 0
  | (k2, v) :: rest => if k2 = k then v else lookupD rest k

/-- `InvoiceHandler.__init__`: empty debounce table, session start now. -/
def InvoiceHandler.init (now : Int) : HandlerState := ⟨[], now⟩

/-- Model of `_should_process` (lines 198-209).  `mtime` is the stat
result (`none` is the `FileNotFoundError` branch); returns the decision
and the updated handler state. -/
def _should_process (st : HandlerState) (file_path : Path) (mtime : Option Int)
    (now : Int) : Bool × HandlerState :=
  match mtime with
  | none => (false, st)
  | some m =>
    if m < st.start_time then (false, st)
    else
      if now - lookupD st.debounce (pathStr file_path) < DEBOUNCE_SECONDS then (false, st)
      else (true, ⟨(pathStr file_path, now) :: st.debounce, st.start_time⟩)

/-- A filesystem event as delivered to the handler. -/
structure Event where
  is_directory : Bool
  src_path : Path
deriving DecidableEq

/-- The environment one event is handled in: the stat result and clock
read by `_should_process`, the stability polls, the invoice document on
disk, and the write environment of the retry loop. -/
structure EventEnv where
  mtime : Option Int
  now : Int
  obs : Nat → Obs
  invoice : Document
  wenv : Nat → Bool × Bool

/-- The event filter of lines 220-224 (de Morgan of the skip condition):
not a directory, lower-cased path ends in the pdf extension, and does
not end in the merged-file suffix. -/
def passes_filter (ev : Event) : Bool :=
  !ev.is_directory
    && endswith (lower (pathStr ev.src_path)) ".pdf"
    && !(endswith (lower (pathStr ev.src_path)) ".merged.pdf")

/-- The pipeline stages an event goes through, in execution order. -/
inductive Stage where
  | filterPass
  | debounce (accepted : Bool)
  | stability (ready : Bool)
  | mergeRun
deriving DecidableEq

/-- What handling one event produced: the new handler state, the new
global processed set, the chronological stage trace, and the merge
result when the merge ran. -/
structure EventResult where
  state : HandlerState
  processed : List String
  trace : List Stage
  mergeResult : Option MergeResult
deriving DecidableEq

/-- Model of `_process_event` plus `_handle_pdf` (lines 211-228): the
filter, then `_should_process`, then `wait_until_file_ready`, then
`merge_letterhead` in place. -/
def _process_event (letterhead_path : Path) (letterheadDoc : Document)
    (st : HandlerState) (processed : List String) (ev : Event) (env : EventEnv) :
    EventResult :=
  if passes_filter ev then
    let sp := _should_process st ev.src_path env.mtime env.now
    if sp.1 then
      if wait_until_file_ready env.obs 10 then
        let r := merge_letterhead processed ev.src_path letterhead_path none
          env.invoice letterheadDoc env.wenv
        ⟨sp.2, r.processed, [.filterPass, .debounce true, .stability true, .mergeRun], some r⟩
      else
        ⟨sp.2, processed, [.filterPass, .debounce true, .stability false], none⟩
    else
      ⟨sp.2, processed, [.filterPass, .debounce false], none⟩
  else
    ⟨st, processed, [], none⟩

/-- `on_created` dispatches to `_process_event` (line 230-231). -/
def on_created := _process_event

/-- `on_modified` dispatches to `_process_event` (line 233-234). -/
def on_modified := _process_event

/-- Run a sequence of events through one handler, threading handler
state and the global processed set. -/
def runEvents (letterhead_path : Path) (lhDoc : Document) :
    HandlerState → List String → List (Event × EventEnv) →
    HandlerState × List String × List EventResult
  | st, proc, [] => (st, proc, [])
  | st, proc, (ev, env) :: rest =>
    let r := _process_event letterhead_path lhDoc st proc ev env
    let more := runEvents letterhead_path lhDoc r.state r.processed rest
    (more.1, more.2.1, r :: more.2.2)

/-- Number of merge jobs executed in a list of event results. -/
def mergeRunCount (rs : List EventResult) : Nat :=
  (rs.map (fun r => r.trace.count Stage.mergeRun)).sum

/-- Whether a stage is the stability wait. -/
def isStabilityStage : Stage → Bool
  | .stability _ => true
  | _ => false

/-- Whether a stage is the debounce decision. -/
def isDebounceStage : Stage → Bool
  | .debounce _ => true
  | _ => false

/-- Model of `toggle_watch` (lines 378-402) restricted to its dedupe
state: stopping discards the handler; starting builds a fresh handler
bound to now.  The global processed set is untouched by either. -/
def toggle_watch : Option HandlerState → Int → Option HandlerState
  | some _, _ => none
  | none, now => some (InvoiceHandler.init now)

/-! ### Manual and batch jobs (src/main.py lines 425-460) -/

/-- One merge job: the call arguments of `merge_letterhead`, with the
documents read from disk and the write environment as inputs. -/
structure Job where
  invoice_path : Path
  letterhead_path : Path
  output_path : Option Path
  invoice : Document
  letterhead : Document
  wenv : Nat → Bool × Bool

/-- Run one job against the current global processed set. -/
def runJob (proc : List String) (j : Job) : MergeResult :=
  merge_letterhead proc j.invoice_path j.letterhead_path j.output_path
    j.invoice j.letterhead j.wenv

/-- Run a list of jobs in order, threading the global processed set. -/
def runJobs : List String → List Job → List String × List MergeResult
  | proc, [] => (proc, [])
  | proc, j :: rest =>
    let r := runJob proc j
    let more := runJobs r.processed rest
    (more.1, r :: more.2)

/-- The output path the batch loop builds at line 459:
`Path(output_folder) / file.with_suffix(".merged.pdf").name`. -/
def batchOutPath (folder : String) (f : Path) : Path :=
  ⟨folder, (with_suffix f ".merged.pdf").name⟩

/-- Model of `batch_merge` (lines 457-460): one explicit-output merge
job per selected file, in order. -/
def batch_merge (proc : List String) (lhP : Path) (lhD : Document)
    (files : List Path) (folder : String) (docs : Path → Document)
    (wenvF : Path → Nat → Bool × Bool) : List String × List MergeResult :=
  runJobs proc (files.map (fun f =>
    ⟨f, lhP, some (batchOutPath folder f), docs f, lhD, wenvF f⟩))

/-- Whether a merge call got past the two skip checks at lines 127-130. -/
def began (r : MergeResult) : Bool :=
  match r.outcome with
  | .skippedSuffix => false
  | .skippedProcessed => false
  | _ => true

/-- How many jobs of a run on a given source path get past the skip
checks. -/
def countBegan (p : String) : List String → List Job → Nat
  | _, [] => 0
  | proc, j :: rest =>
    let r := runJob proc j
    (if pathStr j.invoice_path = p ∧ began r = true then 1 else 0)
      + countBegan p r.processed rest

/-- Whether some result of a run replaced (merged in place) the file at
a given source path. -/
def inPlaceMergedB (p : String) (rs : List MergeResult) : Bool :=
  rs.any (fun r => r.effects.any (fun e =>
    match e with
    | .replace _ dst => decide (pathStr dst = p)
    | _ => false))

/-! ## Theorems -/

/-! ### The page-overlay merge -/

/-- C2: for every invoice document D and every one-page letterhead L,
merge(D, L) produces a new document with exactly as many pages as D, in
the same order, where page i is page i of D with the single letterhead
page composited onto it; a zero-page invoice yields a zero-page result,
not an error. -/
theorem merge_preserves_page_count (D L : Document) (h : L.pages.length = 1) :
    merge D L = .ok (overlayAll D L.pages.headI)
    ∧ (overlayAll D L.pages.headI).pages
        = D.pages.map (fun p => merge_page p L.pages.headI)
    ∧ (overlayAll D L.pages.headI).pages.length = D.pages.length
    ∧ (D.pages = [] → (overlayAll D L.pages.headI).pages = []) := by
  refine ⟨by simp [merge, h], rfl, by simp [overlayAll], ?_⟩
  intro h0
  simp [overlayAll, h0]

/-- Witness for C2 on a two-page invoice and a one-page letterhead. -/
theorem merge_preserves_page_count_witness :
    (⟨[Page.base "H"]⟩ : Document).pages.length = 1
    ∧ merge ⟨[Page.base "a", Page.base "b"]⟩ ⟨[Page.base "H"]⟩
        = .ok (overlayAll ⟨[Page.base "a", Page.base "b"]⟩
            (⟨[Page.base "H"]⟩ : Document).pages.headI) :=
  ⟨by decide,
    (merge_preserves_page_count ⟨[Page.base "a", Page.base "b"]⟩
      ⟨[Page.base "H"]⟩ (by decide)).1⟩

/-- C5: merge fails with the invalid-letterhead error exactly when the
letterhead page count is not 1, and in that case the pipeline writes no
output file. -/
theorem invalid_letterhead_rejected (proc : List String) (ip lp : Path)
    (out : Option Path) (D L : Document) (wenv : Nat → Bool × Bool)
    (hbad : L.pages.length ≠ 1)
    (hsuf : endswith ip.name ".merged.pdf" = false)
    (hmem : pathStr ip ∉ proc) :
    merge D L = .error .invalidLetterhead
    ∧ (∀ D2 L2 : Document, L2.pages.length = 1 →
        merge D2 L2 = .ok (overlayAll D2 L2.pages.headI))
    ∧ (merge_letterhead proc ip lp out D L wenv).outcome = .errInvalidLetterhead
    ∧ (merge_letterhead proc ip lp out D L wenv).effects = [] := by
  refine ⟨by simp [merge, hbad], fun D2 L2 h2 => by simp [merge, h2], ?_, ?_⟩
  all_goals simp [merge_letterhead, hsuf, hmem, merge, hbad, skipResult]

/-- Witness for C5 on zero-page and two-page letterheads. -/
theorem invalid_letterhead_rejected_witness :
    ((⟨[Page.base "H", Page.base "I"]⟩ : Document).pages.length ≠ 1
      ∧ endswith "a.pdf" ".merged.pdf" = false
      ∧ "/w/a.pdf" ∉ ([] : List String))
    ∧ merge ⟨[Page.base "p"]⟩ ⟨[Page.base "H", Page.base "I"]⟩
        = .error .invalidLetterhead
    ∧ merge ⟨[Page.base "p"]⟩ ⟨[]⟩ = .error .invalidLetterhead :=
  ⟨⟨by decide, by decide, by decide⟩,
    (invalid_letterhead_rejected [] ⟨"/w", "a.pdf"⟩ ⟨"/w", "lh.pdf"⟩ none
      ⟨[Page.base "p"]⟩ ⟨[Page.base "H", Page.base "I"]⟩ (fun _ => (true, true))
      (by decide) (by decide) (by decide)).1,
    (invalid_letterhead_rejected [] ⟨"/w", "a.pdf"⟩ ⟨"/w", "lh.pdf"⟩ none
      ⟨[Page.base "p"]⟩ ⟨[]⟩ (fun _ => (true, true))
      (by decide) (by decide) (by decide)).1⟩

/-! ### The stability gate -/

/-- Unfolding equation of `hasAdjEqPosI` on two or more entries. -/
theorem hasAdjEqPosI_cons_cons (a b : Int) (l : List Int) :
    hasAdjEqPosI (a :: b :: l) = if b = a ∧ 0 < b then true else hasAdjEqPosI (b :: l) :=
  rfl

/-- Unfolding equation of `hasAdjEqPos` on two or more entries. -/
theorem hasAdjEqPos_cons_cons (a b : Nat) (l : List Nat) :
    hasAdjEqPos (a :: b :: l) = if b = a ∧ 0 < b then true else hasAdjEqPos (b :: l) :=
  rfl

/-- The poll loop is equivalent to searching for two consecutive equal
positive size readings, starting from the carried `last_size`. -/
theorem waitLoopL_eq_spec : ∀ (l : List Obs) (last : Int),
    waitLoopL l last = hasAdjEqPosI (last :: (sizeReads l).map Int.ofNat) := by
  intro l
  induction l with
  | nil => intro last; simp [waitLoopL, sizeReads, hasAdjEqPosI]
  | cons o rest ih =>
    intro last
    cases o with
    | absent =>
      have hreads : sizeReads (Obs.absent :: rest) = sizeReads rest := by
        simp [sizeReads, isStatGone, obsSize]
      rw [show waitLoopL (Obs.absent :: rest) last = waitLoopL rest last from rfl,
        hreads]
      exact ih last
    | statGone =>
      have hreads : sizeReads (Obs.statGone :: rest) = [] := by
        simp [sizeReads, isStatGone]
      rw [show waitLoopL (Obs.statGone :: rest) last = false from rfl, hreads]
      simp [hasAdjEqPosI]
    | size n =>
      have hreads : sizeReads (Obs.size n :: rest) = n :: sizeReads rest := by
        simp [sizeReads, isStatGone, obsSize]
      rw [show waitLoopL (Obs.size n :: rest) last
            = (if (n : Int) = last ∧ 0 < n then true else waitLoopL rest n) from rfl,
        hreads, List.map_cons, hasAdjEqPosI_cons_cons]
      by_cases hc : (n : Int) = last ∧ 0 < n
      · rw [if_pos hc, if_pos ⟨hc.1, Int.ofNat_pos.mpr hc.2⟩]
      · rw [if_neg hc, if_neg (fun h => hc ⟨h.1, Int.ofNat_pos.mp h.2⟩)]
        exact ih (Int.ofNat n)

/-- Casting a reading list to integers does not change the search. -/
theorem hasAdjEqPosI_map_cast : ∀ (l : List Nat),
    hasAdjEqPosI (l.map Int.ofNat) = hasAdjEqPos l := by
  intro l
  induction l with
  | nil => rfl
  | cons a rest ih =>
    cases rest with
    | nil => rfl
    | cons b r2 =>
      simp only [List.map_cons] at ih ⊢
      rw [hasAdjEqPosI_cons_cons, hasAdjEqPos_cons_cons, ih]
      by_cases hc : b = a ∧ 0 < b
      · rw [if_pos hc, if_pos ⟨Int.ofNat_inj.mpr hc.1, Int.ofNat_pos.mpr hc.2⟩]
      · rw [if_neg hc,
          if_neg (fun h => hc ⟨Int.ofNat_inj.mp h.1, Int.ofNat_pos.mp h.2⟩)]

/-- The initial `last_size = -1` can never match a reading. -/
theorem hasAdjEqPosI_neg_one (l : List Nat) :
    hasAdjEqPosI ((-1 : Int) :: l.map Int.ofNat) = hasAdjEqPosI (l.map Int.ofNat) := by
  cases l with
  | nil => rfl
  | cons a rest =>
    have h1 : ¬ (Int.ofNat a = (-1 : Int) ∧ (0 : Int) < Int.ofNat a) := by
      rintro ⟨h, -⟩
      have h0 : (0 : Int) ≤ Int.ofNat a := Int.ofNat_nonneg a
      omega
    rw [List.map_cons, hasAdjEqPosI_cons_cons, if_neg h1]

/-- C3: wait_until_file_ready polls the size at most timeout*2 times and
returns true exactly when two consecutive observed sizes (the readings
made before any mid-poll disappearance, absent polls skipped) are equal
and greater than zero; an all-zero size sequence is not ready, the
sequence 100,100 is ready, and a file that disappears mid-poll is not
ready. -/
theorem wait_until_file_ready_spec :
    (∀ (obs : Nat → Obs) (timeout : Nat),
       wait_until_file_ready obs timeout
         = hasAdjEqPos (sizeReads (pollWindow obs timeout)))
    ∧ wait_until_file_ready (fun _ => Obs.size 0) 10 = false
    ∧ wait_until_file_ready (fun _ => Obs.size 100) 10 = true
    ∧ wait_until_file_ready (fun i => if i = 0 then Obs.size 50 else Obs.absent) 10 = false
    ∧ wait_until_file_ready (fun i => if i = 0 then Obs.size 50 else Obs.statGone) 10 = false := by
  refine ⟨?_, by decide, by decide, by decide, by decide⟩
  intro obs timeout
  rw [wait_until_file_ready, waitLoopL_eq_spec, hasAdjEqPosI_neg_one,
    hasAdjEqPosI_map_cast]

/-! ### The write-and-commit retry loop -/

/-- Shape of an in-place retry run that fails on the first k attempts
and succeeds on attempt k+1: some failed-attempt rewrites of the temp
file, then the final write and the single replace, with k sleeps. -/
theorem writeLoop_inplace_success (temp tgt : Path) (doc : Document)
    (wenv : Nat → Bool × Bool) :
    ∀ (k fuel i : Nat), k < fuel →
      (∀ m, m < k → wenv (i + m) ≠ (true, true)) →
      wenv (i + k) = (true, true) →
      ∃ ws : List Effect,
        writeLoop temp tgt doc true wenv fuel i
          = (ws ++ [Effect.write temp doc, Effect.replace temp tgt], k, true)
        ∧ ∀ e ∈ ws, e = Effect.write temp doc := by
  intro k
  induction k with
  | zero =>
    intro fuel i hk hfail hsucc
    match fuel, hk with
    | fuel+1, _ =>
      refine ⟨[], ?_, by simp⟩
      rw [show i + 0 = i from rfl] at hsucc
      simp [writeLoop, hsucc]
  | succ k ih =>
    intro fuel i hk hfail hsucc
    match fuel, hk with
    | fuel+1, hk =>
      have h0 : wenv i ≠ (true, true) := by
        have := hfail 0 (Nat.succ_pos k)
        simpa using this
      have hfail2 : ∀ m, m < k → wenv ((i+1) + m) ≠ (true, true) := by
        intro m hm
        have hx := hfail (m+1) (by omega)
        have : i + (m+1) = (i+1) + m := by omega
        rwa [this] at hx
      have hsucc2 : wenv ((i+1) + k) = (true, true) := by
        have : i + (k+1) = (i+1) + k := by omega
        rwa [this] at hsucc
      obtain ⟨ws, heq, hws⟩ := ih fuel (i+1) (by omega) hfail2 hsucc2
      cases hw : wenv i with
      | mk w r =>
        cases w with
        | false =>
          refine ⟨ws, ?_, hws⟩
          simp [writeLoop, hw, heq]
        | true =>
          cases r with
          | false =>
            refine ⟨Effect.write temp doc :: ws, ?_, ?_⟩
            · simp [writeLoop, hw, heq]
            · intro e he
              rcases List.mem_cons.mp he with h | h
              · exact h
              · exact hws e h
          | true => exact absurd hw h0

/-- Shape of an in-place retry run where every attempt fails: one sleep
per attempt, no commit. -/
theorem writeLoop_inplace_allfail (temp tgt : Path) (doc : Document)
    (wenv : Nat → Bool × Bool) :
    ∀ (fuel i : Nat), (∀ m, m < fuel → wenv (i + m) ≠ (true, true)) →
      (writeLoop temp tgt doc true wenv fuel i).2.1 = fuel
      ∧ (writeLoop temp tgt doc true wenv fuel i).2.2 = false := by
  intro fuel
  induction fuel with
  | zero => intro i hfail; simp [writeLoop]
  | succ fuel ih =>
    intro i hfail
    have h0 : wenv i ≠ (true, true) := by
      have := hfail 0 (Nat.succ_pos fuel)
      simpa using this
    have hfail2 : ∀ m, m < fuel → wenv ((i+1) + m) ≠ (true, true) := by
      intro m hm
      have hx := hfail (m+1) (by omega)
      have : i + (m+1) = (i+1) + m := by omega
      rwa [this] at hx
    obtain ⟨hs, hc⟩ := ih (i+1) hfail2
    cases hw : wenv i with
    | mk w r =>
      cases w with
      | false => simp [writeLoop, hw, hs, hc]
      | true =>
        cases r with
        | false => simp [writeLoop, hw, hs, hc]
        | true => exact absurd hw h0

/-- Replaying failed-attempt rewrites of the temp file, the final write
and the replace leaves the merged document at the target path. -/
theorem applyEffects_commit (t g : Path) (d : Document) :
    ∀ (ws : List Effect) (store : Path → Option Document),
      (∀ e ∈ ws, e = Effect.write t d) →
      applyEffects store (ws ++ [Effect.write t d, Effect.replace t g]) g = some d := by
  intro ws
  induction ws with
  | nil =>
    intro store h
    simp [applyEffects, applyEffect]
  | cons e rest ih =>
    intro store h
    have he : e = Effect.write t d := h e (List.mem_cons_self e rest)
    subst he
    exact ih _ (fun e2 he2 => h e2 (List.mem_cons_of_mem _ he2))

/-- C4: with retries = 3, an in-place write-and-commit that hits a lock
error on the first k lt 3 attempts and succeeds on attempt k+1 leaves
exactly the merged document at the source path, replaces it exactly
once, and sleeps k times between attempts; if all 3 attempts fail the
job ends in a write error that is surfaced, not silently dropped. -/
theorem write_retry_commit (proc : List String) (ip lp : Path) (inv lh : Document)
    (wenv : Nat → Bool × Bool) (k : Nat) (store : Path → Option Document)
    (hsuf : endswith ip.name ".merged.pdf" = false)
    (hmem : pathStr ip ∉ proc)
    (hlh : lh.pages.length = 1)
    (hk : k < 3)
    (hfail : ∀ m, m < k → wenv m ≠ (true, true))
    (hsucc : wenv k = (true, true)) :
    ((merge_letterhead proc ip lp none inv lh wenv).outcome = .ok
      ∧ (merge_letterhead proc ip lp none inv lh wenv).sleeps = k
      ∧ replaceEffects (merge_letterhead proc ip lp none inv lh wenv).effects
          = [Effect.replace (with_suffix ip ".merged.pdf") ip]
      ∧ applyEffects store (merge_letterhead proc ip lp none inv lh wenv).effects ip
          = some (overlayAll inv lh.pages.headI))
    ∧ (∀ wenv2 : Nat → Bool × Bool, (∀ m, m < 3 → wenv2 m ≠ (true, true)) →
        (merge_letterhead proc ip lp none inv lh wenv2).outcome = .errWrite
        ∧ (merge_letterhead proc ip lp none inv lh wenv2).sleeps = 3
        ∧ (merge_letterhead proc ip lp none inv lh wenv2).notices = ["Merge Failed"]) := by
  constructor
  · obtain ⟨ws, heq, hws⟩ := writeLoop_inplace_success (with_suffix ip ".merged.pdf") ip
      (overlayAll inv lh.pages.headI) wenv k 3 0 hk (by simpa using hfail)
      (by simpa using hsucc)
    have hfilter : replaceEffects (ws ++ [Effect.write (with_suffix ip ".merged.pdf")
        (overlayAll inv lh.pages.headI),
        Effect.replace (with_suffix ip ".merged.pdf") ip])
        = [Effect.replace (with_suffix ip ".merged.pdf") ip] := by
      have hnil : ws.filter isReplaceE = [] := by
        rw [List.filter_eq_nil_iff]
        intro e he
        rw [hws e he]
        simp [isReplaceE]
      simp [replaceEffects, List.filter_append, hnil, isReplaceE]
    refine ⟨?_, ?_, ?_, ?_⟩
    all_goals simp [merge_letterhead, hsuf, hmem, merge, hlh, heq, hfilter,
      applyEffects_commit _ _ _ ws store hws]
  · intro wenv2 hfail2
    obtain ⟨hs, hc⟩ := writeLoop_inplace_allfail (with_suffix ip ".merged.pdf") ip
      (overlayAll inv lh.pages.headI) wenv2 3 0 (by simpa using hfail2)
    refine ⟨?_, ?_, ?_⟩
    all_goals simp [merge_letterhead, hsuf, hmem, merge, hlh, hs, hc]

/-- Witness for C4: lock error on the first attempt, success on the
second, and a separate all-fail environment. -/
theorem write_retry_commit_witness :
    (endswith "a.pdf" ".merged.pdf" = false
      ∧ "/w/a.pdf" ∉ ([] : List String)
      ∧ (⟨[Page.base "H"]⟩ : Document).pages.length = 1
      ∧ 1 < 3
      ∧ (∀ m, m < 1 → (fun i => if i = 0 then ((false, false) : Bool × Bool)
          else (true, true)) m ≠ (true, true))
      ∧ (fun i => if i = 0 then ((false, false) : Bool × Bool) else (true, true)) 1
          = (true, true))
    ∧ (merge_letterhead [] ⟨"/w", "a.pdf"⟩ ⟨"/w", "lh.pdf"⟩ none ⟨[Page.base "p"]⟩
        ⟨[Page.base "H"]⟩
        (fun i => if i = 0 then ((false, false) : Bool × Bool) else (true, true))).sleeps
        = 1 :=
  ⟨⟨by decide, by decide, by decide, by decide, by decide, by decide⟩,
    ((write_retry_commit [] ⟨"/w", "a.pdf"⟩ ⟨"/w", "lh.pdf"⟩ ⟨[Page.base "p"]⟩
      ⟨[Page.base "H"]⟩
      (fun i => if i = 0 then ((false, false) : Bool × Bool) else (true, true)) 1
      (fun _ => none) (by decide) (by decide) (by decide) (by decide)
      (by decide) (by decide)).1).2.1⟩

/-! ### Skip behaviour and the processed set -/

/-- A call on a merged-suffix name or an already-processed path is one
of the two skip returns. -/
theorem merge_skip_eq (proc : List String) (ip lp : Path) (out : Option Path)
    (inv lh : Document) (wenv : Nat → Bool × Bool)
    (h : endswith ip.name ".merged.pdf" = true ∨ pathStr ip ∈ proc) :
    merge_letterhead proc ip lp out inv lh wenv = skipResult proc .skippedSuffix
    ∨ merge_letterhead proc ip lp out inv lh wenv = skipResult proc .skippedProcessed := by
  by_cases hs : endswith ip.name ".merged.pdf" = true
  · left
    simp [merge_letterhead, hs]
  · right
    rcases h with h | h
    · exact absurd h hs
    · simp [merge_letterhead, hs, h]

/-- Both branches of a conditional agree on the processed field. -/
theorem processed_ite {c : Prop} [Decidable c] (a b : MergeResult) (p : List String)
    (ha : a.processed = p) (hb : b.processed = p) :
    (if c then a else b).processed = p := by
  split
  · exact ha
  · exact hb

/-- What each call does to the global processed set: nothing on a skip,
otherwise it inserts the source path (lines 127-131). -/
theorem merge_processed_eq (proc : List String) (ip lp : Path) (out : Option Path)
    (inv lh : Document) (wenv : Nat → Bool × Bool) :
    (merge_letterhead proc ip lp out inv lh wenv).processed
      = if endswith ip.name ".merged.pdf" = true then proc
        else if pathStr ip ∈ proc then proc
        else pathStr ip :: proc := by
  by_cases hs : endswith ip.name ".merged.pdf" = true
  · simp [merge_letterhead, hs, skipResult]
  · by_cases hm : pathStr ip ∈ proc
    · simp [merge_letterhead, hs, hm, skipResult]
    · simp only [merge_letterhead, hs, hm, if_false, if_neg hm, Bool.false_eq_true,
        ite_false]
      cases merge inv lh with
      | error e => rfl
      | ok doc =>
        cases out with
        | none => exact processed_ite _ _ _ rfl rfl
        | some o => exact processed_ite _ _ _ rfl rfl

/-- The global processed set only grows across one call. -/
theorem runJob_processed_mono (proc : List String) (j : Job) :
    proc ⊆ (runJob proc j).processed := by
  rw [runJob, merge_processed_eq]
  split
  · exact List.Subset.refl proc
  · split
    · exact List.Subset.refl proc
    · exact List.subset_cons_self _ _

/-- A call that got past the skip checks was on a fresh, well-named
path and inserted it. -/
theorem began_runJob (proc : List String) (j : Job)
    (h : began (runJob proc j) = true) :
    endswith j.invoice_path.name ".merged.pdf" = false
    ∧ pathStr j.invoice_path ∉ proc
    ∧ (runJob proc j).processed = pathStr j.invoice_path :: proc := by
  by_cases hs : endswith j.invoice_path.name ".merged.pdf" = true
  · exfalso
    have : runJob proc j = skipResult proc .skippedSuffix := by
      simp [runJob, merge_letterhead, hs]
    rw [this] at h
    simp [began, skipResult] at h
  · by_cases hm : pathStr j.invoice_path ∈ proc
    · exfalso
      have : runJob proc j = skipResult proc .skippedProcessed := by
        simp [runJob, merge_letterhead, hs, hm]
      rw [this] at h
      simp [began, skipResult] at h
    · refine ⟨by simpa using hs, hm, ?_⟩
      rw [runJob, merge_processed_eq, if_neg hs, if_neg hm]

/-- C10: a merge call on a source whose name ends in .merged.pdf or
whose path is already in the process-wide processed set returns
silently: no file effect, no notification, no log line, no dialog, no
state change; a whole batch of such sources produces no output at all. -/
theorem silent_skip_no_output (proc : List String) (ip lp : Path) (out : Option Path)
    (inv lh : Document) (wenv : Nat → Bool × Bool)
    (h : endswith ip.name ".merged.pdf" = true ∨ pathStr ip ∈ proc) :
    ((merge_letterhead proc ip lp out inv lh wenv).effects = []
      ∧ (merge_letterhead proc ip lp out inv lh wenv).notices = []
      ∧ (merge_letterhead proc ip lp out inv lh wenv).logs = []
      ∧ (merge_letterhead proc ip lp out inv lh wenv).infoBoxes = []
      ∧ (merge_letterhead proc ip lp out inv lh wenv).errorBoxes = []
      ∧ (merge_letterhead proc ip lp out inv lh wenv).sleeps = 0
      ∧ (merge_letterhead proc ip lp out inv lh wenv).processed = proc
      ∧ ((merge_letterhead proc ip lp out inv lh wenv).outcome = .skippedSuffix
          ∨ (merge_letterhead proc ip lp out inv lh wenv).outcome = .skippedProcessed))
    ∧ (∀ (files : List Path) (folder : String) (docs : Path → Document)
        (wenvF : Path → Nat → Bool × Bool),
        (∀ f ∈ files, endswith f.name ".merged.pdf" = true ∨ pathStr f ∈ proc) →
        (batch_merge proc lp lh files folder docs wenvF).1 = proc
        ∧ ∀ r ∈ (batch_merge proc lp lh files folder docs wenvF).2,
            r.effects = [] ∧ r.notices = [] ∧ r.logs = []
              ∧ r.infoBoxes = [] ∧ r.errorBoxes = []) := by
  constructor
  · rcases merge_skip_eq proc ip lp out inv lh wenv h with heq | heq
    · rw [heq]
      exact ⟨rfl, rfl, rfl, rfl, rfl, rfl, rfl, Or.inl rfl⟩
    · rw [heq]
      exact ⟨rfl, rfl, rfl, rfl, rfl, rfl, rfl, Or.inr rfl⟩
  · intro files
    induction files with
    | nil =>
      intro folder docs wenvF hall
      exact ⟨rfl, by intro r hr; cases hr⟩
    | cons f rest ih =>
      intro folder docs wenvF hall
      have hskip := merge_skip_eq proc f lp (some (batchOutPath folder f))
        (docs f) lh (wenvF f) (hall f (List.mem_cons_self f rest))
      have hrest := ih folder docs wenvF
        (fun g hg => hall g (List.mem_cons_of_mem f hg))
      have hbatch : batch_merge proc lp lh (f :: rest) folder docs wenvF
          = ((batch_merge proc lp lh rest folder docs wenvF).1,
             merge_letterhead proc f lp (some (batchOutPath folder f)) (docs f) lh (wenvF f)
               :: (batch_merge proc lp lh rest folder docs wenvF).2) := by
        have hp : (merge_letterhead proc f lp (some (batchOutPath folder f))
            (docs f) lh (wenvF f)).processed = proc := by
          rcases hskip with heq | heq
          · rw [heq]; rfl
          · rw [heq]; rfl
        simp [batch_merge, runJobs, runJob, hp]
      rw [hbatch]
      refine ⟨hrest.1, ?_⟩
      intro r hr
      rcases List.mem_cons.mp hr with hfirst | hmem
      · subst hfirst
        rcases hskip with heq | heq
        · rw [heq]; exact ⟨rfl, rfl, rfl, rfl, rfl⟩
        · rw [heq]; exact ⟨rfl, rfl, rfl, rfl, rfl⟩
      · exact hrest.2 r hmem

/-- Witness for C10: a manual job with an explicit output whose source
is already in the processed set writes nothing and shows nothing. -/
theorem silent_skip_no_output_witness :
    (endswith "a.pdf" ".merged.pdf" = true ∨ "/w/a.pdf" ∈ ["/w/a.pdf"])
    ∧ (merge_letterhead ["/w/a.pdf"] ⟨"/w", "a.pdf"⟩ ⟨"/w", "lh.pdf"⟩
        (some ⟨"/out", "a.merged.pdf"⟩) ⟨[Page.base "p"]⟩ ⟨[Page.base "H"]⟩
        (fun _ => (true, true))).effects = []
    ∧ (merge_letterhead ["/w/a.pdf"] ⟨"/w", "a.pdf"⟩ ⟨"/w", "lh.pdf"⟩
        (some ⟨"/out", "a.merged.pdf"⟩) ⟨[Page.base "p"]⟩ ⟨[Page.base "H"]⟩
        (fun _ => (true, true))).errorBoxes = [] :=
  ⟨Or.inr (by decide),
    ((silent_skip_no_output ["/w/a.pdf"] ⟨"/w", "a.pdf"⟩ ⟨"/w", "lh.pdf"⟩
      (some ⟨"/out", "a.merged.pdf"⟩) ⟨[Page.base "p"]⟩ ⟨[Page.base "H"]⟩
      (fun _ => (true, true)) (Or.inr (by decide))).1).1,
    (((silent_skip_no_output ["/w/a.pdf"] ⟨"/w", "a.pdf"⟩ ⟨"/w", "lh.pdf"⟩
      (some ⟨"/out", "a.merged.pdf"⟩) ⟨[Page.base "p"]⟩ ⟨[Page.base "H"]⟩
      (fun _ => (true, true)) (Or.inr (by decide))).1).2.2.2.2).1⟩

/-- A path already in the processed set contributes no further
processing in any later run. -/
theorem countBegan_eq_zero (p : String) :
    ∀ (jobs : List Job) (proc : List String), p ∈ proc →
      countBegan p proc jobs = 0 := by
  intro jobs
  induction jobs with
  | nil => intro proc hp; rfl
  | cons j rest ih =>
    intro proc hp
    have hflag : ¬ (pathStr j.invoice_path = p ∧ began (runJob proc j) = true) := by
      rintro ⟨hpath, hbeg⟩
      have := (began_runJob proc j hbeg).2.1
      rw [hpath] at this
      exact this hp
    rw [countBegan, if_neg hflag]
    have : p ∈ (runJob proc j).processed := runJob_processed_mono proc j hp
    rw [ih _ this]

/-- Across any run, a given source path gets past the skip checks at
most once. -/
theorem countBegan_le_one :
    ∀ (jobs : List Job) (proc : List String) (p : String),
      countBegan p proc jobs ≤ 1 := by
  intro jobs
  induction jobs with
  | nil => intro proc p; simp [countBegan]
  | cons j rest ih =>
    intro proc p
    by_cases hflag : pathStr j.invoice_path = p ∧ began (runJob proc j) = true
    · rw [countBegan, if_pos hflag]
      have hmem : p ∈ (runJob proc j).processed := by
        rw [(began_runJob proc j hflag.2).2.2, hflag.1]
        exact List.mem_cons_self _ _
      rw [countBegan_eq_zero p rest _ hmem]
    · rw [countBegan, if_neg hflag]
      simpa using ih (runJob proc j).processed p

/-- Membership in the final processed set of a run. -/
theorem runJobs_mem_iff :
    ∀ (jobs : List Job) (proc0 : List String) (p : String),
      p ∈ (runJobs proc0 jobs).1 ↔ p ∈ proc0
        ∨ ∃ j ∈ jobs, pathStr j.invoice_path = p
            ∧ endswith j.invoice_path.name ".merged.pdf" = false := by
  intro jobs
  induction jobs with
  | nil =>
    intro proc0 p
    simp [runJobs]
  | cons j rest ih =>
    intro proc0 p
    have hstep : p ∈ (runJob proc0 j).processed ↔ p ∈ proc0
        ∨ (pathStr j.invoice_path = p
            ∧ endswith j.invoice_path.name ".merged.pdf" = false) := by
      rw [runJob, merge_processed_eq]
      by_cases hs : endswith j.invoice_path.name ".merged.pdf" = true
      · rw [if_pos hs]
        constructor
        · exact Or.inl
        · rintro (h | ⟨-, hsf⟩)
          · exact h
          · rw [hs] at hsf; cases hsf
      · rw [if_neg hs]
        by_cases hm : pathStr j.invoice_path ∈ proc0
        · rw [if_pos hm]
          constructor
          · exact Or.inl
          · rintro (h | ⟨hpath, -⟩)
            · exact h
            · rw [← hpath]; exact hm
        · rw [if_neg hm, List.mem_cons]
          constructor
          · rintro (h | h)
            · exact Or.inr ⟨h.symm, by simpa using hs⟩
            · exact Or.inl h
          · rintro (h | ⟨hpath, -⟩)
            · exact Or.inr h
            · exact Or.inl hpath.symm
    have hrun : (runJobs proc0 (j :: rest)).1 = (runJobs (runJob proc0 j).processed rest).1 := rfl
    rw [hrun, ih _ p, hstep]
    simp only [List.mem_cons]
    constructor
    · rintro ((h | h) | h)
      · exact Or.inl h
      · exact Or.inr ⟨j, Or.inl rfl, h⟩
      · obtain ⟨j2, hj2, hp2⟩ := h
        exact Or.inr ⟨j2, Or.inr hj2, hp2⟩
    · rintro (h | ⟨j2, (rfl | hj2), hp2⟩)
      · exact Or.inl (Or.inl h)
      · exact Or.inl (Or.inr hp2)
      · exact Or.inr ⟨j2, hj2, hp2⟩

/-- C1 (amended): the processed set contains exactly the source paths
some call passed the suffix filter on (whether or not that call merged
in place); it only grows; and per path at most one call in a run ever
gets past the skip checks; once the path is present every later call on
it is a silent no-op. -/
theorem processed_set_characterization :
    (∀ (proc0 : List String) (jobs : List Job), proc0 ⊆ (runJobs proc0 jobs).1)
    ∧ (∀ (proc0 : List String) (jobs : List Job) (p : String),
        p ∈ (runJobs proc0 jobs).1 ↔ p ∈ proc0
          ∨ ∃ j ∈ jobs, pathStr j.invoice_path = p
              ∧ endswith j.invoice_path.name ".merged.pdf" = false)
    ∧ (∀ (jobs : List Job) (proc : List String) (p : String),
        countBegan p proc jobs ≤ 1)
    ∧ (∀ (proc : List String) (j : Job), pathStr j.invoice_path ∈ proc →
        (runJob proc j).effects = [] ∧ (runJob proc j).processed = proc
          ∧ began (runJob proc j) = false) := by
  refine ⟨?_, ?_, countBegan_le_one, ?_⟩
  · intro proc0 jobs
    induction jobs generalizing proc0 with
    | nil => exact List.Subset.refl proc0
    | cons j rest ih =>
      exact fun a ha => ih (runJob proc0 j).processed (runJob_processed_mono proc0 j ha)
  · intro proc0 jobs p
    exact runJobs_mem_iff jobs proc0 p
  · intro proc j hmem
    rcases merge_skip_eq proc j.invoice_path j.letterhead_path j.output_path
        j.invoice j.letterhead j.wenv (Or.inr hmem) with heq | heq
    · rw [runJob, heq]
      exact ⟨rfl, rfl, rfl⟩
    · rw [runJob, heq]
      exact ⟨rfl, rfl, rfl⟩

/-- Counterexample to C1 as stated: the processed set is not the set of
paths merged in place at least once.  A single successful explicit-output
job inserts its source path without any in-place replace. -/
theorem processed_set_not_inplace_only :
    ¬ (∀ (proc0 : List String) (jobs : List Job) (p : String),
        p ∈ (runJobs proc0 jobs).1
          ↔ inPlaceMergedB p (runJobs proc0 jobs).2 = true) := by
  intro h
  have hmem : "/w/a.pdf" ∈ (runJobs []
      [⟨⟨"/w", "a.pdf"⟩, ⟨"/w", "lh.pdf"⟩, some ⟨"/out", "a.merged.pdf"⟩,
        ⟨[Page.base "p"]⟩, ⟨[Page.base "H"]⟩, fun _ => (true, true)⟩]).1 := by
    decide
  have := (h [] [⟨⟨"/w", "a.pdf"⟩, ⟨"/w", "lh.pdf"⟩, some ⟨"/out", "a.merged.pdf"⟩,
      ⟨[Page.base "p"]⟩, ⟨[Page.base "H"]⟩, fun _ => (true, true)⟩] "/w/a.pdf").mp hmem
  exact absurd this (by decide)

/-- Witness for C1 (amended) on a concrete already-processed path. -/
theorem processed_set_characterization_witness :
    pathStr (⟨"/w", "a.pdf"⟩ : Path) ∈ ["/w/a.pdf"]
    ∧ (runJob ["/w/a.pdf"]
        ⟨⟨"/w", "a.pdf"⟩, ⟨"/w", "lh.pdf"⟩, none, ⟨[Page.base "p"]⟩,
          ⟨[Page.base "H"]⟩, fun _ => (true, true)⟩).effects = [] :=
  ⟨by decide,
    (processed_set_characterization.2.2.2 ["/w/a.pdf"]
      ⟨⟨"/w", "a.pdf"⟩, ⟨"/w", "lh.pdf"⟩, none, ⟨[Page.base "p"]⟩,
        ⟨[Page.base "H"]⟩, fun _ => (true, true)⟩ (by decide)).1⟩

/-! ### Explicit-output jobs -/

/-- Both branches of a conditional agree on the effects field. -/
theorem effects_ite {c : Prop} [Decidable c] (a b : MergeResult) (es : List Effect)
    (ha : a.effects = es) (hb : b.effects = es) :
    (if c then a else b).effects = es := by
  split
  · exact ha
  · exact hb

/-- With no in-place commit, every effect of the retry loop is a write
of the document to the temp path. -/
theorem writeLoop_explicit_effects (temp tgt : Path) (doc : Document)
    (wenv : Nat → Bool × Bool) :
    ∀ (fuel i : Nat), ∀ e ∈ (writeLoop temp tgt doc false wenv fuel i).1,
      e = Effect.write temp doc := by
  intro fuel
  induction fuel with
  | zero => intro i e he; simp [writeLoop] at he
  | succ fuel ih =>
    intro i e he
    cases hw : wenv i with
    | mk w r =>
      cases w with
      | false => exact ih (i+1) e (by simpa [writeLoop, hw] using he)
      | true =>
        have : (writeLoop temp tgt doc false wenv (fuel+1) i).1
            = [Effect.write temp doc] := by
          simp [writeLoop, hw]
        rw [this] at he
        simpa using he

/-- The explicit-output retry loop commits exactly when some attempt in
the budget has a successful write. -/
theorem writeLoop_explicit_commit (temp tgt : Path) (doc : Document)
    (wenv : Nat → Bool × Bool) :
    ∀ (fuel i : Nat),
      ((writeLoop temp tgt doc false wenv fuel i).2.2 = true
        ↔ ∃ m, m < fuel ∧ (wenv (i + m)).1 = true) := by
  intro fuel
  induction fuel with
  | zero => intro i; simp [writeLoop]
  | succ fuel ih =>
    intro i
    cases hw : wenv i with
    | mk w r =>
      cases w with
      | false =>
        have hred : (writeLoop temp tgt doc false wenv (fuel+1) i).2.2
            = (writeLoop temp tgt doc false wenv fuel (i+1)).2.2 := by
          simp [writeLoop, hw]
        rw [hred, ih (i+1)]
        constructor
        · rintro ⟨m, hm, hwm⟩
          refine ⟨m+1, by omega, ?_⟩
          rw [show i + (m+1) = i + 1 + m from by omega]
          exact hwm
        · rintro ⟨m, hm, hwm⟩
          cases m with
          | zero =>
            rw [Nat.add_zero, hw] at hwm
            cases hwm
          | succ m =>
            refine ⟨m, by omega, ?_⟩
            rw [show i + 1 + m = i + (m+1) from by omega]
            exact hwm
      | true =>
        have hred : (writeLoop temp tgt doc false wenv (fuel+1) i).2.2 = true := by
          simp [writeLoop, hw]
        rw [hred]
        constructor
        · intro _
          exact ⟨0, by omega, by rw [Nat.add_zero, hw]⟩
        · intro _
          rfl

/-- A committed explicit-output run wrote at least once. -/
theorem writeLoop_explicit_nonempty (temp tgt : Path) (doc : Document)
    (wenv : Nat → Bool × Bool) :
    ∀ (fuel i : Nat), (writeLoop temp tgt doc false wenv fuel i).2.2 = true →
      (writeLoop temp tgt doc false wenv fuel i).1 ≠ [] := by
  intro fuel
  induction fuel with
  | zero => intro i hc; simp [writeLoop] at hc
  | succ fuel ih =>
    intro i hc
    cases hw : wenv i with
    | mk w r =>
      cases w with
      | false =>
        have hne := ih (i+1) (by simpa [writeLoop, hw] using hc)
        simpa [writeLoop, hw] using hne
      | true => simp [writeLoop, hw]

/-- Replaying a nonempty list of writes of the same document to the same
path leaves that document at the path. -/
theorem applyEffects_writes_get (t : Path) (d : Document) :
    ∀ (es : List Effect) (store : Path → Option Document),
      (∀ e ∈ es, e = Effect.write t d) → es ≠ [] →
      applyEffects store es t = some d := by
  intro es
  induction es with
  | nil => intro store h hne; exact absurd rfl hne
  | cons e rest ih =>
    intro store h hne
    have he : e = Effect.write t d := h e (List.mem_cons_self _ _)
    subst he
    cases rest with
    | nil => simp [applyEffects, applyEffect]
    | cons e2 r2 =>
      exact ih _ (fun x hx => h x (List.mem_cons_of_mem _ hx)) (by simp)

/-- Replaying writes to one path leaves every other path untouched. -/
theorem applyEffects_writes_frame (t : Path) (d : Document) :
    ∀ (es : List Effect) (store : Path → Option Document) (q : Path),
      (∀ e ∈ es, e = Effect.write t d) → q ≠ t →
      applyEffects store es q = store q := by
  intro es
  induction es with
  | nil => intro store q h hq; rfl
  | cons e rest ih =>
    intro store q h hq
    have he : e = Effect.write t d := h e (List.mem_cons_self _ _)
    subst he
    rw [show applyEffects store (Effect.write t d :: rest) q
        = applyEffects (applyEffect store (Effect.write t d)) rest q from rfl,
      ih _ q (fun x hx => h x (List.mem_cons_of_mem _ hx)) hq]
    simp [applyEffect, hq]

/-- Replaying writes to one path, of whatever documents, leaves every
other path untouched. -/
theorem applyEffects_writes_any_frame (t : Path) :
    ∀ (es : List Effect) (store : Path → Option Document) (q : Path),
      (∀ e ∈ es, ∃ d, e = Effect.write t d) → q ≠ t →
      applyEffects store es q = store q := by
  intro es
  induction es with
  | nil => intro store q h hq; rfl
  | cons e rest ih =>
    intro store q h hq
    obtain ⟨d, rfl⟩ := h e (List.mem_cons_self _ _)
    rw [show applyEffects store (Effect.write t d :: rest) q
        = applyEffects (applyEffect store (Effect.write t d)) rest q from rfl,
      ih _ q (fun x hx => h x (List.mem_cons_of_mem _ hx)) hq]
    simp [applyEffect, hq]

/-- Every effect of an explicit-output call is a write to the chosen
output path; in particular the source is never replaced. -/
theorem merge_explicit_all_writes (proc : List String) (ip lp o : Path)
    (inv lh : Document) (wenv : Nat → Bool × Bool) :
    ∀ e ∈ (merge_letterhead proc ip lp (some o) inv lh wenv).effects,
      ∃ d, e = Effect.write o d := by
  by_cases hs : endswith ip.name ".merged.pdf" = true
  · have heq : merge_letterhead proc ip lp (some o) inv lh wenv
        = skipResult proc .skippedSuffix := by
      simp [merge_letterhead, hs]
    rw [heq]
    intro e he
    cases he
  · by_cases hm : pathStr ip ∈ proc
    · have heq : merge_letterhead proc ip lp (some o) inv lh wenv
          = skipResult proc .skippedProcessed := by
        simp [merge_letterhead, hs, hm]
      rw [heq]
      intro e he
      cases he
    · cases hmg : merge inv lh with
      | error er =>
        have heq : (merge_letterhead proc ip lp (some o) inv lh wenv).effects = [] := by
          simp [merge_letterhead, hs, hm, hmg]
        rw [heq]
        intro e he
        cases he
      | ok doc =>
        have heq : (merge_letterhead proc ip lp (some o) inv lh wenv).effects
            = (writeLoop o ip doc false wenv 3 0).1 := by
          simp only [merge_letterhead, hmg]
          rw [if_neg (by simp [hs]), if_neg hm]
          exact effects_ite _ _ _ rfl rfl
        rw [heq]
        intro e he
        exact ⟨doc, writeLoop_explicit_effects o ip doc wenv 3 0 e he⟩

/-- A list of writes to one path contains no replace effect. -/
theorem replaceEffects_of_writes (es : List Effect) (o : Path)
    (h : ∀ e ∈ es, ∃ d, e = Effect.write o d) : replaceEffects es = [] := by
  rw [replaceEffects, List.filter_eq_nil_iff]
  intro e he
  obtain ⟨d, rfl⟩ := h e he
  simp [isReplaceE]

/-- Every effect of a batch run is a write to the batch output path of
one of the selected files. -/
theorem batch_effects_writes :
    ∀ (files : List Path) (proc2 : List String) (lp2 : Path) (lh2 : Document)
      (folder : String) (docs : Path → Document) (wenvF : Path → Nat → Bool × Bool),
      ∀ r ∈ (batch_merge proc2 lp2 lh2 files folder docs wenvF).2,
        ∀ e ∈ r.effects, ∃ f ∈ files, ∃ d, e = Effect.write (batchOutPath folder f) d := by
  intro files
  induction files with
  | nil =>
    intro proc2 lp2 lh2 folder docs wenvF r hr
    cases hr
  | cons f rest ih =>
    intro proc2 lp2 lh2 folder docs wenvF r hr
    have hstep : (batch_merge proc2 lp2 lh2 (f :: rest) folder docs wenvF).2
        = merge_letterhead proc2 f lp2 (some (batchOutPath folder f)) (docs f) lh2 (wenvF f)
          :: (batch_merge (merge_letterhead proc2 f lp2 (some (batchOutPath folder f))
                (docs f) lh2 (wenvF f)).processed lp2 lh2 rest folder docs wenvF).2 := rfl
    rw [hstep] at hr
    rcases List.mem_cons.mp hr with rfl | hmem
    · intro e he
      obtain ⟨d, hd⟩ := merge_explicit_all_writes proc2 f lp2 (batchOutPath folder f)
        (docs f) lh2 (wenvF f) e he
      exact ⟨f, List.mem_cons_self _ _, d, hd⟩
    · intro e he
      obtain ⟨f2, hf2, d, hd⟩ := ih _ lp2 lh2 folder docs wenvF r hmem e he
      exact ⟨f2, List.mem_cons_of_mem _ hf2, d, hd⟩

/-- C8 (amended): an explicit-output merge job never replaces the
source in place, and whenever the chosen output path differs from the
source path the source content is left untouched (that condition alone
suffices); when the job is not skipped, the letterhead is valid and
some attempt succeeds, the merged document ends up at the explicit
output path (for batch jobs, at the batch-built name inside the chosen
folder) - so a manual job that selects the source itself as the output
overwrites the source with the merged document. -/
theorem explicit_output_preserves_source (proc : List String) (ip lp out : Path)
    (inv lh : Document) (wenv : Nat → Bool × Bool) (store : Path → Option Document)
    (hsuf : endswith ip.name ".merged.pdf" = false)
    (hmem : pathStr ip ∉ proc)
    (hlh : lh.pages.length = 1)
    (hwr : ∃ m, m < 3 ∧ (wenv m).1 = true) :
    ((merge_letterhead proc ip lp (some out) inv lh wenv).outcome = .ok
      ∧ applyEffects store (merge_letterhead proc ip lp (some out) inv lh wenv).effects out
          = some (overlayAll inv lh.pages.headI)
      ∧ (out ≠ ip →
          applyEffects store (merge_letterhead proc ip lp (some out) inv lh wenv).effects ip
            = store ip))
    ∧ (∀ (proc2 : List String) (ip2 lp2 o2 : Path) (inv2 lh2 : Document)
        (wenv2 : Nat → Bool × Bool) (store2 : Path → Option Document),
        replaceEffects (merge_letterhead proc2 ip2 lp2 (some o2) inv2 lh2 wenv2).effects = []
        ∧ (ip2 ≠ o2 →
            applyEffects store2
              (merge_letterhead proc2 ip2 lp2 (some o2) inv2 lh2 wenv2).effects ip2
              = store2 ip2))
    ∧ (∀ (proc2 : List String) (lp2 : Path) (lh2 : Document) (files : List Path)
        (folder : String) (docs : Path → Document) (wenvF : Path → Nat → Bool × Bool),
        ∀ r ∈ (batch_merge proc2 lp2 lh2 files folder docs wenvF).2,
          ∀ e ∈ r.effects, ∃ f ∈ files, ∃ d, e = Effect.write (batchOutPath folder f) d) := by
  refine ⟨?_, ?_, fun proc2 lp2 lh2 files => batch_effects_writes files proc2 lp2 lh2⟩
  · have hcommit : (writeLoop out ip (overlayAll inv lh.pages.headI) false wenv 3 0).2.2
        = true := by
      rw [writeLoop_explicit_commit]
      obtain ⟨m, hm, hwm⟩ := hwr
      exact ⟨m, hm, by simpa using hwm⟩
    have hml : merge_letterhead proc ip lp (some out) inv lh wenv
        = ⟨pathStr ip :: proc,
            (writeLoop out ip (overlayAll inv lh.pages.headI) false wenv 3 0).1,
            (writeLoop out ip (overlayAll inv lh.pages.headI) false wenv 3 0).2.1,
            [], ["manual saved"], ["Success"], [], .ok⟩ := by
      simp [merge_letterhead, hsuf, hmem, merge, hlh, hcommit]
    have hall := writeLoop_explicit_effects out ip (overlayAll inv lh.pages.headI) wenv 3 0
    have hne := writeLoop_explicit_nonempty out ip (overlayAll inv lh.pages.headI) wenv 3 0
      hcommit
    rw [hml]
    exact ⟨rfl,
      applyEffects_writes_get out (overlayAll inv lh.pages.headI) _ store hall hne,
      fun hout => applyEffects_writes_frame out (overlayAll inv lh.pages.headI) _ store ip
        hall (fun h => hout h.symm)⟩
  · intro proc2 ip2 lp2 o2 inv2 lh2 wenv2 store2
    refine ⟨replaceEffects_of_writes _ o2
      (merge_explicit_all_writes proc2 ip2 lp2 o2 inv2 lh2 wenv2), ?_⟩
    intro hne2
    exact applyEffects_writes_any_frame o2 _ store2 ip2
      (merge_explicit_all_writes proc2 ip2 lp2 o2 inv2 lh2 wenv2) hne2

/-- Counterexample to C8 as stated: a batch or manual job whose source
is already in the processed set writes nothing at the explicit output
path. -/
theorem explicit_output_skip_counterexample :
    ¬ (∀ (proc : List String) (ip lp o : Path) (inv lh : Document)
        (wenv : Nat → Bool × Bool),
        Effect.write o (overlayAll inv lh.pages.headI)
          ∈ (merge_letterhead proc ip lp (some o) inv lh wenv).effects) := by
  intro h
  have := h ["/w/a.pdf"] ⟨"/w", "a.pdf"⟩ ⟨"/w", "lh.pdf"⟩ ⟨"/out", "a.merged.pdf"⟩
    ⟨[Page.base "p"]⟩ ⟨[Page.base "H"]⟩ (fun _ => (true, true))
  exact absurd this (by decide)

/-- Witness for C8 (amended) on a concrete explicit-output job. -/
theorem explicit_output_preserves_source_witness :
    (endswith "a.pdf" ".merged.pdf" = false
      ∧ "/w/a.pdf" ∉ ([] : List String)
      ∧ (⟨[Page.base "H"]⟩ : Document).pages.length = 1
      ∧ (⟨"/out", "a.merged.pdf"⟩ : Path) ≠ ⟨"/w", "a.pdf"⟩
      ∧ ∃ m, m < 3 ∧ ((fun _ => ((true, true) : Bool × Bool)) m).1 = true)
    ∧ applyEffects (fun _ => none)
        (merge_letterhead [] ⟨"/w", "a.pdf"⟩ ⟨"/w", "lh.pdf"⟩
          (some ⟨"/out", "a.merged.pdf"⟩) ⟨[Page.base "p"]⟩ ⟨[Page.base "H"]⟩
          (fun _ => (true, true))).effects ⟨"/w", "a.pdf"⟩
        = (fun (_ : Path) => (none : Option Document)) ⟨"/w", "a.pdf"⟩ :=
  ⟨⟨by decide, by decide, by decide, by decide, ⟨0, by omega, rfl⟩⟩,
    ((explicit_output_preserves_source [] ⟨"/w", "a.pdf"⟩ ⟨"/w", "lh.pdf"⟩
      ⟨"/out", "a.merged.pdf"⟩ ⟨[Page.base "p"]⟩ ⟨[Page.base "H"]⟩
      (fun _ => (true, true)) (fun _ => none) (by decide) (by decide) (by decide)
      ⟨0, by omega, rfl⟩).1).2.2 (by decide)⟩

/-! ### The watch handler pipeline -/

/-- For an event that passes the filter, the handler state after the
event is whatever `_should_process` decided, fixed before the stability
wait runs. -/
theorem process_event_state (lhP : Path) (lhD : Document) (st : HandlerState)
    (proc : List String) (ev : Event) (env : EventEnv)
    (hf : passes_filter ev = true) :
    (_process_event lhP lhD st proc ev env).state
      = (_should_process st ev.src_path env.mtime env.now).2 := by
  by_cases hacc : (_should_process st ev.src_path env.mtime env.now).1 = true
  · by_cases hrdy : wait_until_file_ready env.obs 10 = true
    · simp [_process_event, hf, hacc, hrdy]
    · simp [_process_event, hf, hacc, hrdy]
  · simp [_process_event, hf, hacc]

/-- The four possible stage traces of one event. -/
theorem process_event_trace_cases (lhP : Path) (lhD : Document) (st : HandlerState)
    (proc : List String) (ev : Event) (env : EventEnv) :
    (_process_event lhP lhD st proc ev env).trace = []
    ∨ (_process_event lhP lhD st proc ev env).trace
        = [Stage.filterPass, Stage.debounce false]
    ∨ (_process_event lhP lhD st proc ev env).trace
        = [Stage.filterPass, Stage.debounce true, Stage.stability false]
    ∨ (_process_event lhP lhD st proc ev env).trace
        = [Stage.filterPass, Stage.debounce true, Stage.stability true, Stage.mergeRun] := by
  by_cases hf : passes_filter ev = true
  · by_cases hacc : (_should_process st ev.src_path env.mtime env.now).1 = true
    · by_cases hrdy : wait_until_file_ready env.obs 10 = true
      · exact Or.inr (Or.inr (Or.inr (by simp [_process_event, hf, hacc, hrdy])))
      · exact Or.inr (Or.inr (Or.inl (by simp [_process_event, hf, hacc, hrdy])))
    · exact Or.inr (Or.inl (by simp [_process_event, hf, hacc]))
  · exact Or.inl (by simp [_process_event, hf])

/-- One event executes at most one merge job. -/
theorem process_event_mergeRun_le_one (lhP : Path) (lhD : Document) (st : HandlerState)
    (proc : List String) (ev : Event) (env : EventEnv) :
    (_process_event lhP lhD st proc ev env).trace.count Stage.mergeRun ≤ 1 := by
  rcases process_event_trace_cases lhP lhD st proc ev env with h | h | h | h
  all_goals rw [h]
  all_goals decide

/-- The debounce-table entry just written is the one read back. -/
theorem lookupD_cons_self (k : String) (v : Int) (tbl : List (String × Int)) :
    lookupD ((k, v) :: tbl) k = v := by
  simp [lookupD]

/-- An accepted `_should_process` call passed the mtime and debounce
checks and upserted the last-processed time. -/
theorem should_process_accept (st : HandlerState) (p : Path) (mtime : Option Int)
    (now : Int) (h : (_should_process st p mtime now).1 = true) :
    (_should_process st p mtime now).2
      = ⟨(pathStr p, now) :: st.debounce, st.start_time⟩
    ∧ ¬ (now - lookupD st.debounce (pathStr p) < DEBOUNCE_SECONDS) := by
  cases mtime with
  | none => simp [_should_process] at h
  | some m =>
    by_cases h1 : m < st.start_time
    · simp [_should_process, h1] at h
    · by_cases h2 : now - lookupD st.debounce (pathStr p) < DEBOUNCE_SECONDS
      · simp [_should_process, h1, h2] at h
      · exact ⟨by simp [_should_process, h1, h2], h2⟩

/-- A call inside the debounce window is rejected and leaves the state
unchanged, whatever the mtime check says. -/
theorem should_process_false_of_recent (st : HandlerState) (p : Path)
    (mtime : Option Int) (now : Int)
    (h : now - lookupD st.debounce (pathStr p) < DEBOUNCE_SECONDS) :
    (_should_process st p mtime now).1 = false
    ∧ (_should_process st p mtime now).2 = st := by
  cases mtime with
  | none => exact ⟨rfl, rfl⟩
  | some m =>
    by_cases h1 : m < st.start_time
    · simp [_should_process, h1]
    · simp [_should_process, h1, h]

/-- Trace of an event rejected by `_should_process`. -/
theorem process_event_trace_of_reject (lhP : Path) (lhD : Document) (st : HandlerState)
    (proc : List String) (ev : Event) (env : EventEnv)
    (hf : passes_filter ev = true)
    (hacc : (_should_process st ev.src_path env.mtime env.now).1 = false) :
    (_process_event lhP lhD st proc ev env).trace
      = [Stage.filterPass, Stage.debounce false] := by
  simp [_process_event, hf, hacc]

/-- Trace of an event that does not pass the filter. -/
theorem process_event_trace_of_filtered (lhP : Path) (lhD : Document) (st : HandlerState)
    (proc : List String) (ev : Event) (env : EventEnv)
    (hf : ¬ passes_filter ev = true) :
    (_process_event lhP lhD st proc ev env).trace = [] := by
  simp [_process_event, hf]

/-- After an accepted event, a second event on the same path inside the
debounce window is rejected by the debounce rule. -/
theorem second_event_rejected (lhP : Path) (lhD : Document) (st : HandlerState)
    (proc : List String) (ev : Event) (env1 env2 : EventEnv)
    (hlt : env2.now - env1.now < DEBOUNCE_SECONDS)
    (hf : passes_filter ev = true)
    (hacc : (_should_process st ev.src_path env1.mtime env1.now).1 = true) :
    (_process_event lhP lhD (_process_event lhP lhD st proc ev env1).state
        (_process_event lhP lhD st proc ev env1).processed ev env2).trace
      = [Stage.filterPass, Stage.debounce false]
    ∧ env2.now - lookupD (_process_event lhP lhD st proc ev env1).state.debounce
        (pathStr ev.src_path) < DEBOUNCE_SECONDS := by
  have hstate : (_process_event lhP lhD st proc ev env1).state
      = (_should_process st ev.src_path env1.mtime env1.now).2 :=
    process_event_state lhP lhD st proc ev env1 hf
  have hdeb := (should_process_accept st ev.src_path env1.mtime env1.now hacc).1
  have hcond : env2.now - lookupD (_process_event lhP lhD st proc ev env1).state.debounce
      (pathStr ev.src_path) < DEBOUNCE_SECONDS := by
    rw [hstate, hdeb]
    show env2.now - lookupD ((pathStr ev.src_path, env1.now) :: st.debounce)
        (pathStr ev.src_path) < DEBOUNCE_SECONDS
    rw [lookupD_cons_self]
    exact hlt
  have hsp2 := should_process_false_of_recent
    (_process_event lhP lhD st proc ev env1).state ev.src_path env2.mtime env2.now hcond
  exact ⟨process_event_trace_of_reject lhP lhD _ _ ev env2 hf hsp2.1, hcond⟩

/-- C7 (confirmed): a create event followed within the debounce window
by a modify event on the same path runs at most one merge job; when the
first event was accepted, the second is rejected by the debounce rule
now - lastProcessed lt DEBOUNCE_SECONDS. -/
theorem duplicate_event_single_merge (lhP : Path) (lhD : Document) (st : HandlerState)
    (proc : List String) (ev : Event) (env1 env2 : EventEnv)
    (hlt : env2.now - env1.now < DEBOUNCE_SECONDS) :
    mergeRunCount (runEvents lhP lhD st proc [(ev, env1), (ev, env2)]).2.2 ≤ 1
    ∧ (passes_filter ev = true →
        (_should_process st ev.src_path env1.mtime env1.now).1 = true →
        (_process_event lhP lhD (_process_event lhP lhD st proc ev env1).state
            (_process_event lhP lhD st proc ev env1).processed ev env2).trace
          = [Stage.filterPass, Stage.debounce false]
        ∧ env2.now - lookupD (_process_event lhP lhD st proc ev env1).state.debounce
            (pathStr ev.src_path) < DEBOUNCE_SECONDS) := by
  have hrun : (runEvents lhP lhD st proc [(ev, env1), (ev, env2)]).2.2
      = [_process_event lhP lhD st proc ev env1,
         _process_event lhP lhD (_process_event lhP lhD st proc ev env1).state
           (_process_event lhP lhD st proc ev env1).processed ev env2] := rfl
  constructor
  · rw [hrun]
    have hsum : mergeRunCount [_process_event lhP lhD st proc ev env1,
        _process_event lhP lhD (_process_event lhP lhD st proc ev env1).state
          (_process_event lhP lhD st proc ev env1).processed ev env2]
        = (_process_event lhP lhD st proc ev env1).trace.count Stage.mergeRun
          + (_process_event lhP lhD (_process_event lhP lhD st proc ev env1).state
              (_process_event lhP lhD st proc ev env1).processed ev env2).trace.count
              Stage.mergeRun := by
      simp [mergeRunCount]
    rw [hsum]
    by_cases hf : passes_filter ev = true
    · by_cases hacc : (_should_process st ev.src_path env1.mtime env1.now).1 = true
      · have htr2 := (second_event_rejected lhP lhD st proc ev env1 env2 hlt hf hacc).1
        rw [htr2]
        have hc1 := process_event_mergeRun_le_one lhP lhD st proc ev env1
        simpa using hc1
      · have htr1 : (_process_event lhP lhD st proc ev env1).trace
            = [Stage.filterPass, Stage.debounce false] :=
          process_event_trace_of_reject lhP lhD st proc ev env1 hf
            (Bool.not_eq_true _ ▸ Bool.of_not_eq_true hacc)
        rw [htr1]
        have hc2 := process_event_mergeRun_le_one lhP lhD
          (_process_event lhP lhD st proc ev env1).state
          (_process_event lhP lhD st proc ev env1).processed ev env2
        simpa using hc2
    · have htr1 : (_process_event lhP lhD st proc ev env1).trace = [] :=
        process_event_trace_of_filtered lhP lhD st proc ev env1 hf
      have htr2 : (_process_event lhP lhD (_process_event lhP lhD st proc ev env1).state
          (_process_event lhP lhD st proc ev env1).processed ev env2).trace = [] :=
        process_event_trace_of_filtered lhP lhD _ _ ev env2 hf
      rw [htr1, htr2]
      decide
  · intro hf hacc
    exact second_event_rejected lhP lhD st proc ev env1 env2 hlt hf hacc

/-- Witness for C7 on a concrete create-then-modify pair 5 time units
apart. -/
theorem duplicate_event_single_merge_witness :
    ((105 : Int) - 100 < DEBOUNCE_SECONDS)
    ∧ mergeRunCount (runEvents ⟨"/w", "lh.pdf"⟩ ⟨[Page.base "H"]⟩ (InvoiceHandler.init 0) []
        [(⟨false, ⟨"/w", "a.pdf"⟩⟩,
          ⟨some 1, 100, fun _ => Obs.size 100, ⟨[Page.base "p"]⟩, fun _ => (true, true)⟩),
         (⟨false, ⟨"/w", "a.pdf"⟩⟩,
          ⟨some 101, 105, fun _ => Obs.size 100, ⟨[Page.base "p"]⟩,
            fun _ => (true, true)⟩)]).2.2 ≤ 1 :=
  ⟨by decide,
    (duplicate_event_single_merge ⟨"/w", "lh.pdf"⟩ ⟨[Page.base "H"]⟩
      (InvoiceHandler.init 0) [] ⟨false, ⟨"/w", "a.pdf"⟩⟩
      ⟨some 1, 100, fun _ => Obs.size 100, ⟨[Page.base "p"]⟩, fun _ => (true, true)⟩
      ⟨some 101, 105, fun _ => Obs.size 100, ⟨[Page.base "p"]⟩, fun _ => (true, true)⟩
      (by decide)).1⟩

/-- C6 (amended): for every event passing the filter, the stages run in
the order filter, then debounce decision (which also records the
last-processed time in the handler state), then stability wait, then
merge; creation and modification events are dispatched identically. -/
theorem pipeline_stage_order (lhP : Path) (lhD : Document) (st : HandlerState)
    (proc : List String) (ev : Event) (env : EventEnv)
    (hf : passes_filter ev = true) :
    ((_process_event lhP lhD st proc ev env).trace
      = Stage.filterPass
        :: Stage.debounce (_should_process st ev.src_path env.mtime env.now).1
        :: (if (_should_process st ev.src_path env.mtime env.now).1 then
              Stage.stability (wait_until_file_ready env.obs 10)
                :: (if wait_until_file_ready env.obs 10 then [Stage.mergeRun] else [])
            else []))
    ∧ (_process_event lhP lhD st proc ev env).state
        = (_should_process st ev.src_path env.mtime env.now).2
    ∧ on_created = _process_event
    ∧ on_modified = _process_event := by
  refine ⟨?_, process_event_state lhP lhD st proc ev env hf, rfl, rfl⟩
  by_cases hacc : (_should_process st ev.src_path env.mtime env.now).1 = true
  · by_cases hrdy : wait_until_file_ready env.obs 10 = true
    · simp [_process_event, hf, hacc, hrdy]
    · simp [_process_event, hf, hacc, hrdy]
  · simp [_process_event, hf, hacc]

/-- Counterexample to C6 as stated: the stability wait does not come
before the debounce decision; on a passing event the trace places the
debounce stage strictly before the stability stage. -/
theorem stability_order_counterexample :
    ¬ (∀ (lhP : Path) (lhD : Document) (st : HandlerState) (proc : List String)
        (ev : Event) (env : EventEnv) (i j : Nat),
        passes_filter ev = true →
        (_process_event lhP lhD st proc ev env).trace.findIdx? isStabilityStage = some i →
        (_process_event lhP lhD st proc ev env).trace.findIdx? isDebounceStage = some j →
        i < j) := by
  intro h
  have h2 := h ⟨"/w", "lh.pdf"⟩ ⟨[Page.base "H"]⟩ (InvoiceHandler.init 0) []
    ⟨false, ⟨"/w", "a.pdf"⟩⟩
    ⟨some 1, 100, fun _ => Obs.size 100, ⟨[Page.base "p"]⟩, fun _ => (true, true)⟩
    2 1 (by decide) (by decide) (by decide)
  omega

/-- Witness for C6 (amended) on a concrete passing event. -/
theorem pipeline_stage_order_witness :
    passes_filter ⟨false, (⟨"/w", "a.pdf"⟩ : Path)⟩ = true
    ∧ (_process_event ⟨"/w", "lh.pdf"⟩ ⟨[Page.base "H"]⟩ (InvoiceHandler.init 0) []
        ⟨false, ⟨"/w", "a.pdf"⟩⟩
        ⟨some 1, 100, fun _ => Obs.size 100, ⟨[Page.base "p"]⟩,
          fun _ => (true, true)⟩).state
      = (_should_process (InvoiceHandler.init 0) ⟨"/w", "a.pdf"⟩ (some 1) 100).2 :=
  ⟨by decide,
    (pipeline_stage_order ⟨"/w", "lh.pdf"⟩ ⟨[Page.base "H"]⟩ (InvoiceHandler.init 0) []
      ⟨false, ⟨"/w", "a.pdf"⟩⟩
      ⟨some 1, 100, fun _ => Obs.size 100, ⟨[Page.base "p"]⟩, fun _ => (true, true)⟩
      (by decide)).2.1⟩

/-! ### Watch sessions -/

/-- A skip on an already-processed, well-named path is the processed
skip. -/
theorem merge_skip_processed (proc : List String) (ip lp : Path) (out : Option Path)
    (inv lh : Document) (wenv : Nat → Bool × Bool)
    (hsuf : endswith ip.name ".merged.pdf" = false)
    (hmem : pathStr ip ∈ proc) :
    merge_letterhead proc ip lp out inv lh wenv = skipResult proc .skippedProcessed := by
  simp [merge_letterhead, hsuf, hmem]

/-- C9 (amended): stopping a watch session discards the handler and its
debounce table; a later session starts with an empty debounce table
bound to the new start time; but the processed set is process-wide, so
a path recorded in it is still skipped by the merge in the new session,
not processed again. -/
theorem watch_restart_state :
    (∀ (h : HandlerState) (now : Int), toggle_watch (some h) now = none)
    ∧ (∀ now : Int, toggle_watch none now = some (⟨[], now⟩ : HandlerState))
    ∧ (∀ (lhP : Path) (lhD : Document) (now : Int) (proc : List String) (ev : Event)
        (env : EventEnv) (r : MergeResult),
        pathStr ev.src_path ∈ proc →
        endswith ev.src_path.name ".merged.pdf" = false →
        (_process_event lhP lhD (InvoiceHandler.init now) proc ev env).mergeResult
          = some r →
        r.effects = [] ∧ r.outcome = .skippedProcessed ∧ r.processed = proc) := by
  refine ⟨fun h now => rfl, fun now => rfl, ?_⟩
  intro lhP lhD now proc ev env r hmem hsuf hr
  by_cases hf : passes_filter ev = true
  · by_cases hacc : (_should_process (InvoiceHandler.init now) ev.src_path env.mtime
        env.now).1 = true
    · by_cases hrdy : wait_until_file_ready env.obs 10 = true
      · have hres : (_process_event lhP lhD (InvoiceHandler.init now) proc ev
            env).mergeResult = some (merge_letterhead proc ev.src_path lhP none
              env.invoice lhD env.wenv) := by
          simp [_process_event, hf, hacc, hrdy]
        rw [hres] at hr
        have hrr : r = merge_letterhead proc ev.src_path lhP none env.invoice lhD
            env.wenv := (Option.some_injective _ hr).symm
        rw [hrr, merge_skip_processed proc ev.src_path lhP none env.invoice lhD
          env.wenv hsuf hmem]
        exact ⟨rfl, rfl, rfl⟩
      · have : (_process_event lhP lhD (InvoiceHandler.init now) proc ev
            env).mergeResult = none := by
          simp [_process_event, hf, hacc, hrdy]
        rw [this] at hr
        cases hr
    · have : (_process_event lhP lhD (InvoiceHandler.init now) proc ev
          env).mergeResult = none := by
        simp [_process_event, hf, hacc]
      rw [this] at hr
      cases hr
  · have : (_process_event lhP lhD (InvoiceHandler.init now) proc ev
        env).mergeResult = none := by
      simp [_process_event, hf]
    rw [this] at hr
    cases hr

/-- Counterexample to C9 as stated: after an in-place merge in session
one and a watch restart, the same file reaches the merge in session two
with a fresh debounce table and a stable file, yet the process-wide
processed set makes the merge a silent skip: the file cannot be
processed again. -/
theorem session_restart_counterexample :
    (Effect.replace (with_suffix ⟨"/w", "a.pdf"⟩ ".merged.pdf") ⟨"/w", "a.pdf"⟩
        ∈ (((_process_event ⟨"/w", "lh.pdf"⟩ ⟨[Page.base "H"]⟩ (InvoiceHandler.init 0) []
            ⟨false, ⟨"/w", "a.pdf"⟩⟩
            ⟨some 1, 100, fun _ => Obs.size 100, ⟨[Page.base "p"]⟩,
              fun _ => (true, true)⟩).mergeResult.map (fun r => r.effects)).getD []))
    ∧ toggle_watch (some (InvoiceHandler.init 0)) 150 = none
    ∧ toggle_watch none 200 = some (InvoiceHandler.init 200)
    ∧ (_process_event ⟨"/w", "lh.pdf"⟩ ⟨[Page.base "H"]⟩ (InvoiceHandler.init 200)
        (_process_event ⟨"/w", "lh.pdf"⟩ ⟨[Page.base "H"]⟩ (InvoiceHandler.init 0) []
          ⟨false, ⟨"/w", "a.pdf"⟩⟩
          ⟨some 1, 100, fun _ => Obs.size 100, ⟨[Page.base "p"]⟩,
            fun _ => (true, true)⟩).processed
        ⟨false, ⟨"/w", "a.pdf"⟩⟩
        ⟨some 250, 300, fun _ => Obs.size 100, ⟨[Page.base "p"]⟩,
          fun _ => (true, true)⟩).trace
      = [Stage.filterPass, Stage.debounce true, Stage.stability true, Stage.mergeRun]
    ∧ ((_process_event ⟨"/w", "lh.pdf"⟩ ⟨[Page.base "H"]⟩ (InvoiceHandler.init 200)
        (_process_event ⟨"/w", "lh.pdf"⟩ ⟨[Page.base "H"]⟩ (InvoiceHandler.init 0) []
          ⟨false, ⟨"/w", "a.pdf"⟩⟩
          ⟨some 1, 100, fun _ => Obs.size 100, ⟨[Page.base "p"]⟩,
            fun _ => (true, true)⟩).processed
        ⟨false, ⟨"/w", "a.pdf"⟩⟩
        ⟨some 250, 300, fun _ => Obs.size 100, ⟨[Page.base "p"]⟩,
          fun _ => (true, true)⟩).mergeResult.map (fun r => r.outcome))
      = some MergeOutcome.skippedProcessed
    ∧ ((_process_event ⟨"/w", "lh.pdf"⟩ ⟨[Page.base "H"]⟩ (InvoiceHandler.init 200)
        (_process_event ⟨"/w", "lh.pdf"⟩ ⟨[Page.base "H"]⟩ (InvoiceHandler.init 0) []
          ⟨false, ⟨"/w", "a.pdf"⟩⟩
          ⟨some 1, 100, fun _ => Obs.size 100, ⟨[Page.base "p"]⟩,
            fun _ => (true, true)⟩).processed
        ⟨false, ⟨"/w", "a.pdf"⟩⟩
        ⟨some 250, 300, fun _ => Obs.size 100, ⟨[Page.base "p"]⟩,
          fun _ => (true, true)⟩).mergeResult.map (fun r => r.effects))
      = some [] := by
  refine ⟨by decide, rfl, rfl, by decide, by decide, by decide⟩

/-- Witness for C9 (amended) on session two of the concrete scenario. -/
theorem watch_restart_state_witness :
    ("/w/a.pdf" ∈ ["/w/a.pdf"]
      ∧ endswith "a.pdf" ".merged.pdf" = false
      ∧ (_process_event ⟨"/w", "lh.pdf"⟩ ⟨[Page.base "H"]⟩ (InvoiceHandler.init 200)
          ["/w/a.pdf"] ⟨false, ⟨"/w", "a.pdf"⟩⟩
          ⟨some 250, 300, fun _ => Obs.size 100, ⟨[Page.base "p"]⟩,
            fun _ => (true, true)⟩).mergeResult
        = some (merge_letterhead ["/w/a.pdf"] ⟨"/w", "a.pdf"⟩ ⟨"/w", "lh.pdf"⟩ none
            ⟨[Page.base "p"]⟩ ⟨[Page.base "H"]⟩ (fun _ => (true, true))))
    ∧ (merge_letterhead ["/w/a.pdf"] ⟨"/w", "a.pdf"⟩ ⟨"/w", "lh.pdf"⟩ none
        ⟨[Page.base "p"]⟩ ⟨[Page.base "H"]⟩ (fun _ => (true, true))).effects = [] :=
  ⟨⟨by decide, by decide, by decide⟩,
    (watch_restart_state.2.2 ⟨"/w", "lh.pdf"⟩ ⟨[Page.base "H"]⟩ 200 ["/w/a.pdf"]
      ⟨false, ⟨"/w", "a.pdf"⟩⟩
      ⟨some 250, 300, fun _ => Obs.size 100, ⟨[Page.base "p"]⟩, fun _ => (true, true)⟩
      (merge_letterhead ["/w/a.pdf"] ⟨"/w", "a.pdf"⟩ ⟨"/w", "lh.pdf"⟩ none
        ⟨[Page.base "p"]⟩ ⟨[Page.base "H"]⟩ (fun _ => (true, true)))
      (by decide) (by decide) (by decide)).1⟩

end Merger
